import Mathlib

/-!
# Verification of the stylus pattern matcher and the brace blank-line rule

Shallow embedding of two JavaScript source files of the
`stylelint-plugin-stylus` repository:

* `option.js` (the pattern matcher): `matchesStringOrRegExp`,
  `testAgainstStringOrRegExpOrArray`, `testAgainstStringOrRegExp`,
  `optionsMatches`;
* `lib/utils/stylelint-v15/rules/block-closing-brace-empty-line-before.js`
  (the rule): the per-statement `check` function.

JavaScript strings are modelled as `List Char`; character access `s[i]`
(which yields `undefined` out of range) becomes `jsCharAt : List Char →
Int → Option Char`, and `s.slice(a, b)` becomes `jsSlice` with the
negative-index normalisation of the JS specification.  The JS regular
expression engine is an external facility of the runtime; it is modelled
as an abstract `RegexEngine` structure (`compile` may fail, as `new
RegExp` throws on a malformed pattern, and `exec` returns the matched
substring or nothing).  Code that may throw is embedded in
`Except (List Char)`.
-/

deriving instance DecidableEq for Except

/-- JavaScript strings, modelled as lists of characters. -/
abbrev Str : Type := List Char

/-- The characters of a Lean string literal, used to write `Str` constants. -/
def chars (s : String) : Str := s.data

/-- JS `s[i]`: character access, `undefined` (here `none`) out of range. -/
def jsCharAt (s : Str) (i : Int) : Option Char :=
  if i < 0 then none else s.get? i.toNat

/-- Normalisation of one JS `slice` index against a length: negative
indices count from the end, and the result is clamped to `[0, len]`. -/
def jsSliceIdx (len i : Int) : Int :=
  if i < 0 then max (len + i) 0 else min i len

/-- JS `s.slice(start, end)` with the standard normalisation of negative
indices and clamping to the string bounds. -/
def jsSlice (s : Str) (start stop : Int) : Str :=
  List.take (jsSliceIdx s.length stop - jsSliceIdx s.length start).toNat
    (List.drop (jsSliceIdx s.length start).toNat s)

/-- Dropping `n` trailing characters of a string (used to state how the
inner text of an embedded-regex string is extracted). -/
def dropTrailing (s : Str) (n : Nat) : Str :=
  s.take (s.length - n)

/-- An abstract model of the JS `RegExp` facility: `compile source
ignoreCase` models `new RegExp(source, flags)` (which may throw, hence
`Except`), and `exec r value` models `r.exec(value)`, returning the
matched substring (`match[0]`) on success. -/
structure RegexEngine (ρ : Type) where
  compile : Str → Bool → Except Str ρ
  exec : ρ → Str → Option Str

/-- A comparison value handed to the matcher: a string or a (native,
already-compiled) regular expression. -/
inductive StrOrRegex (ρ : Type) where
  | str (s : Str)
  | regex (r : ρ)
deriving DecidableEq

/-- The success value of the matcher: source object
`{ match, pattern, substring }` (the `match` field is named
`matchedInput`, as `match` is a Lean keyword). -/
structure MatchResult (ρ : Type) where
  matchedInput : Str
  pattern : StrOrRegex ρ
  substring : Str
deriving DecidableEq

/-- Source lines 127–134: the embedded-regex convention, computed from
`firstComparisonChar = comparison[0]`,
`lastComparisonChar = comparison[comparison.length - 1]` and
`secondToLastComparisonChar = comparison[comparison.length - 2]`
(the source variable is named `comparisonIsRegex`). -/
abbrev comparisonIsRegex (c : Str) : Prop :=
  jsCharAt c 0 = some '/' ∧
    (jsCharAt c ((c.length : Int) - 1) = some '/' ∨
      (jsCharAt c ((c.length : Int) - 2) = some '/' ∧
        jsCharAt c ((c.length : Int) - 1) = some 'i'))

/-- Source `testAgainstStringOrRegExp(value, comparison)`.  The JS code
reads `comparison[0]`, `comparison[comparison.length - 1]` and
`comparison[comparison.length - 2]`, decides the embedded-regex
convention, and either compiles and executes the embedded regex (with
`new RegExp(...)`, which may throw) or does a strict string
comparison.  `match[0] || ""` is the matched substring (the `|| ""` is
the identity on an engine-reported empty match). -/
def testAgainstStringOrRegExp (E : RegexEngine ρ) (value : Str)
    (comparison : StrOrRegex ρ) : Except Str (Option (MatchResult ρ)) :=
  match comparison with
  | .regex r =>
      .ok ((E.exec r value).map fun m =>
        { matchedInput := value, pattern := .regex r, substring := m })
  | .str c =>
      if comparisonIsRegex c then
        -- hasCaseInsensitiveFlag = comparisonIsRegex && last === "i"
        if jsCharAt c ((c.length : Int) - 1) = some 'i' then
          match E.compile (jsSlice c 1 (-2)) true with
          | .error e => .error e
          | .ok r =>
              .ok ((E.exec r value).map fun m =>
                { matchedInput := value, pattern := .str c, substring := m })
        else
          match E.compile (jsSlice c 1 (-1)) false with
          | .error e => .error e
          | .ok r =>
              .ok ((E.exec r value).map fun m =>
                { matchedInput := value, pattern := .str c, substring := m })
      else
        .ok (if value = c then
          some { matchedInput := value, pattern := .str c, substring := value }
        else none)

/-- A comparison argument: a single value or an array (source type
`string | RegExp | Array<string | RegExp>`). -/
inductive JSComparison (ρ : Type) where
  | single (c : StrOrRegex ρ)
  | list (l : List (StrOrRegex ρ))
deriving DecidableEq

/-- An input argument: a single string or an array of strings. -/
inductive JSInput where
  | single (s : Str)
  | list (l : List Str)
deriving DecidableEq

/-- Source `testAgainstStringOrRegExpOrArray(value, comparison)`: if the
comparison is an array, iterate it in order and return the first truthy
test result, `false` (here `none`) if none. -/
def testAgainstStringOrRegExpOrArray (E : RegexEngine ρ) (value : Str) :
    JSComparison ρ → Except Str (Option (MatchResult ρ))
  | .single c => testAgainstStringOrRegExp E value c
  | .list l => go l
where
  /-- The `for (const comparisonItem of comparison)` loop. -/
  go : List (StrOrRegex ρ) → Except Str (Option (MatchResult ρ))
  | [] => .ok none
  | c :: rest => do
      let testResult ← testAgainstStringOrRegExp E value c
      match testResult with
      | some m => pure (some m)
      | none => go rest

/-- Source `matchesStringOrRegExp(input, comparison)`: if the input is an
array, iterate its elements in order and return the first truthy result
of testing the element against the whole comparison. -/
def matchesStringOrRegExp (E : RegexEngine ρ) :
    JSInput → JSComparison ρ → Except Str (Option (MatchResult ρ))
  | .single s, comparison => testAgainstStringOrRegExpOrArray E s comparison
  | .list l, comparison => go comparison l
where
  /-- The `for (const inputItem of input)` loop. -/
  go (comparison : JSComparison ρ) :
      List Str → Except Str (Option (MatchResult ρ))
  | [] => .ok none
  | inputItem :: rest => do
      let testResult ← testAgainstStringOrRegExpOrArray E inputItem comparison
      match testResult with
      | some m => pure (some m)
      | none => go comparison rest

/-! ## A concrete, executable instance of the regex engine

For closed counterexamples and witnesses we instantiate the abstract
engine on the fragment of JS regular expressions whose pattern text is
made of alphanumeric characters and spaces only.  On that fragment JS
semantics is plain (case-insensitive) substring search for the first
occurrence, and every non-alphanumeric pattern used below (such as
`a(`) is one that `new RegExp` rejects. -/

/-- A compiled regex of the concrete model: the source text and the
case-insensitivity flag. -/
structure ModelRegex where
  source : Str
  ignoreCase : Bool
deriving DecidableEq

/-- Character comparison, optionally case-insensitive. -/
def charsEqCI (ci : Bool) (a b : Char) : Bool :=
  if ci then a.toLower == b.toLower else a == b

/-- Does pattern `p` match at the start of `s`? -/
def matchesAt (ci : Bool) : Str → Str → Bool
  | [], _ => true
  | _ :: _, [] => false
  | a :: p, b :: s => charsEqCI ci a b && matchesAt ci p s

/-- First occurrence of `p` in `s`, returning the matched slice of `s`
(as JS `exec` does: the slice keeps the original case of the input). -/
def execFrom (ci : Bool) (p : Str) : Str → Option Str
  | [] => if p.isEmpty then some [] else none
  | b :: s =>
      if matchesAt ci p (b :: s) then some ((b :: s).take p.length)
      else execFrom ci p s

/-- The concrete engine: compilation accepts alphanumeric/space pattern
texts (on which it is a faithful model of JS) and rejects the rest. -/
def modelEngine : RegexEngine ModelRegex where
  compile p ci :=
    if p.all (fun c => c.isAlphanum || c == ' ') then .ok ⟨p, ci⟩
    else .error (chars "Invalid regular expression")
  exec r s := execFrom r.ignoreCase r.source s

/-! ## The `block-closing-brace-empty-line-before` rule

The rule's per-statement `check` function.  A postcss statement is
modelled with the fields the rule reads: its `type` string, its optional
child list (`nodes`, absent on blockless statements), its raws
(`raws.after`, the trailing whitespace before the closing brace) and two
serializations supplied by the external Tree Provider (`statement
.toString()` and `blockString(statement)`).  The side effects of `check`
(reporting, fixing) are reified as a `CheckOutcome` return value. -/

/-- A direct child of a statement; the rule only reads its `type`. -/
structure ChildNode where
  type : Str
deriving DecidableEq

/-- The raws of a statement; the rule only reads and writes `after`. -/
structure Raws where
  after : Option Str
deriving DecidableEq

/-- A postcss rule or at-rule statement, restricted to the fields the
rule reads.  `serialization` models `statement.toString()` and
`blockSerialization` models `blockString(statement)`, both produced by
the external Tree Provider. -/
structure Statement where
  type : Str
  nodes : Option (List ChildNode)
  raws : Raws
  serialization : Str
  blockSerialization : Str
deriving DecidableEq

/-- Modelled from the spec: `hasBlock` (from the missing `ast` utility
module) — the statement has a body at all. -/
def hasBlock (statement : Statement) : Bool :=
  statement.nodes.isSome

/-- Modelled from the spec: `hasEmptyBlock` (from the missing `ast`
utility module) — the statement has a body with zero children. -/
def hasEmptyBlock (statement : Statement) : Bool :=
  statement.nodes == some []

/-- Modelled from the spec: `blockString` (from the missing `ast`
utility module) — the statement's serialized body. -/
def blockString (statement : Statement) : Str :=
  statement.blockSerialization

/-- Modelled from the spec: `isSingleLineString` (from the missing
`text` utility module) — true iff the string spans a single line, i.e.
contains no line break. -/
def isSingleLineString (s : Str) : Bool :=
  !s.any fun c => c == '\n' || c == '\r'

/-- Does `p` occur as a contiguous substring of `s`? -/
def hasSubstring (p : Str) : Str → Bool
  | [] => p.isEmpty
  | c :: rest => matchesAt false p (c :: rest) || hasSubstring p rest

/-- Modelled from the spec: `hasEmptyLine` (from the missing `ast`
utility module) — true iff the string contains at least one full blank
line: two consecutive line breaks, with an optional carriage return
before the second line feed. -/
def hasEmptyLine (s : Str) : Bool :=
  hasSubstring (chars "\n\n") s || hasSubstring (chars "\n\r\n") s

/-- Modelled from the spec: `addEmptyLineAfter` (from the missing `fix`
utility module) — mutates only the trailing-whitespace field, inserting
a blank line before the closing brace. -/
def addEmptyLineAfter (statement : Statement) (newline : Str) : Statement :=
  { statement with
      raws := ⟨some (newline ++ newline ++ (statement.raws.after.getD []))⟩ }

/-- Modelled from the spec: `removeEmptyLinesAfter` (from the missing
`fix` utility module) — mutates only the trailing-whitespace field,
collapsing it so that no blank line remains before the closing brace. -/
def removeEmptyLinesAfter (statement : Statement) (_newline : Str) :
    Statement :=
  { statement with
      raws := ⟨some ((statement.raws.after.getD []).filter fun c =>
        !(c == '\n' || c == '\r'))⟩ }

/-- JS truthiness of a comparison value stored in an options object: an
array is always truthy (even empty), a string is truthy iff non-empty, a
regex object is truthy. -/
def jsTruthyComparison : JSComparison ρ → Bool
  | .single (.str s) => !s.isEmpty
  | .single (.regex _) => true
  | .list _ => true

/-- The secondary options object of the rule, restricted to the one
property the rule reads (`except`); `none` in `except` models an absent
property. -/
structure SecondaryOpts (ρ : Type) where
  except : Option (JSComparison ρ)
deriving DecidableEq

/-- Source `optionsMatches(options, propertyName, input)` at property
`"except"`: true iff the options object is present, the property value
is truthy, the input is a string (`input = some s`), and
`matchesStringOrRegExp` succeeds.  A `matchesStringOrRegExp` throw
propagates, hence the `Except`. -/
def optionsMatches (E : RegexEngine ρ) (options : Option (SecondaryOpts ρ))
    (input : Option Str) : Except Str Bool :=
  match options with
  | none => .ok false
  | some o =>
      match o.except with
      | none => .ok false
      | some comparison =>
          if jsTruthyComparison comparison then
            match input with
            | none => .ok false
            | some s => do
                let r ← matchesStringOrRegExp E (.single s) comparison
                pure r.isSome
          else .ok false

/-- Source lines 77–97: the `expectEmptyLineBefore` IIFE.  The primary
option is inverted when `except` matches `"after-closing-brace"`, the
statement is an at-rule and none of its direct children is a
declaration. -/
def expectEmptyLineBefore [DecidableEq ρ] (E : RegexEngine ρ) (primary : Str)
    (secondaryOptions : Option (SecondaryOpts ρ)) (statement : Statement) :
    Except Str Bool := do
  let childNodeTypes := (statement.nodes.getD []).map ChildNode.type
  let om ← optionsMatches E secondaryOptions (some (chars "after-closing-brace"))
  if om && statement.type == chars "atrule" &&
      !(childNodeTypes.contains (chars "decl")) then
    pure (primary == chars "never")
  else
    pure (primary == chars "always-multi-line" &&
      !(isSingleLineString (blockString statement)))

/-- Source line 66: `(statement.raws.after || "").replace(/;+/, "")`.
JS `replace` with a non-global pattern rewrites only the first match,
i.e. only the first maximal run of semicolons is removed. -/
def replaceSemiRunOnce : Str → Str
  | [] => []
  | c :: rest =>
      if c = ';' then rest.dropWhile (· = ';')
      else c :: replaceSemiRunOnce rest

/-- The whitespace text the rule inspects for a blank line. -/
def beforeText (statement : Statement) : Str :=
  replaceSemiRunOnce (statement.raws.after.getD [])

/-- Source lines 68–74: the index of the closing brace inside the
statement's serialization — the last character position, shifted back by
one when the character before it is a carriage return. -/
def closingBraceIndex (statement : Statement) : Int :=
  let statementString := statement.serialization
  let index : Int := (statementString.length : Int) - 1
  if jsCharAt statementString (index - 1) = some '\r' then index - 1
  else index

/-- The string literals of source lines 18–21 (`messages.expected`,
`messages.rejected`). -/
def messagesExpected : Str := chars "Expected empty line before closing brace"

/-- See `messagesExpected`. -/
def messagesRejected : Str := chars "Unexpected empty line before closing brace"

/-- The fix/report context of the rule (`context.fix`,
`context.newline`; the newline is absent when the runner supplies
none). -/
structure Context where
  fix : Bool
  newline : Option Str
deriving DecidableEq

/-- The observable outcome of one `check` call: the early return on a
blockless or empty-block statement, the silent return when the
expectation is met, the silent return when fix mode lacks a newline
string, a fix (with the mutated statement), or a report record
`{message, node, index}`. -/
inductive CheckOutcome where
  | skip
  | metNoop
  | fixSkipped
  | fixed (statement : Statement)
  | reported (message : Str) (node : Statement) (index : Int)
deriving DecidableEq

/-- Source lines 100–131 of `check`, after the expectation boolean has
been computed: return when the expectation is met, otherwise fix (a
silent no-op when no newline string is supplied) or report. -/
def checkAfterExpect (context : Context) (statement : Statement)
    (expect : Bool) : CheckOutcome :=
  if expect == hasEmptyLine (beforeText statement) then CheckOutcome.metNoop
  else if context.fix then
    match context.newline with
    | none => CheckOutcome.fixSkipped
    | some nl =>
        if expect then CheckOutcome.fixed (addEmptyLineAfter statement nl)
        else CheckOutcome.fixed (removeEmptyLinesAfter statement nl)
  else
    CheckOutcome.reported
      (if expect then messagesExpected else messagesRejected)
      statement (closingBraceIndex statement)

/-- Source lines 59–132: the per-statement `check` function.  An
error thrown while computing the expectation (the only throwing step,
through `optionsMatches`) propagates. -/
def check [DecidableEq ρ] (E : RegexEngine ρ) (primary : Str)
    (secondaryOptions : Option (SecondaryOpts ρ)) (context : Context)
    (statement : Statement) : Except Str CheckOutcome :=
  if !(hasBlock statement) || hasEmptyBlock statement then
    .ok CheckOutcome.skip
  else
    match expectEmptyLineBefore E primary secondaryOptions statement with
    | .error e => .error e
    | .ok expect => .ok (checkAfterExpect context statement expect)

/-- A sample multi-line rule statement with no blank line before `}`. -/
def sampleStatement : Statement where
  type := chars "rule"
  nodes := some [⟨chars "decl"⟩]
  raws := ⟨some (chars "\n")⟩
  serialization := chars ".a \x7b\n  color: red;\n\x7d"
  blockSerialization := chars "\x7b\n  color: red;\n\x7d"

/-- Schema-validity of the secondary options, as guaranteed by the
external Validation collaborator before `check` runs: the `except`
property, when present, holds the string `after-closing-brace` or an
array of copies of it. -/
def validSecondary {ρ : Type} : Option (SecondaryOpts ρ) → Prop
  | none => True
  | some o =>
      match o.except with
      | none => True
      | some (.single p) => p = .str (chars "after-closing-brace")
      | some (.list l) => ∀ x ∈ l, x = .str (chars "after-closing-brace")

/-- Does the `except` option contain the literal string
`after-closing-brace`? -/
def exceptContainsACB {ρ : Type} [DecidableEq ρ] :
    Option (SecondaryOpts ρ) → Bool
  | none => false
  | some o =>
      match o.except with
      | none => false
      | some (.single p) =>
          decide (p = .str (chars "after-closing-brace"))
      | some (.list l) =>
          decide (StrOrRegex.str (chars "after-closing-brace") ∈ l)

/-- A sample at-rule statement whose block holds no declaration, used
as a witness for the `after-closing-brace` override. -/
def claim5Stmt : Statement where
  type := chars "atrule"
  nodes := some [⟨chars "rule"⟩]
  raws := ⟨some (chars "\n")⟩
  serialization := chars "@media \x7b\n.a \x7b\x7d\n\x7d"
  blockSerialization := chars "\x7b\n.a \x7b\x7d\n\x7d"

/-- A concrete statement whose raw trailing whitespace holds two runs of
semicolons, used to refute C3. -/
def claim3Stmt : Statement where
  type := chars "rule"
  nodes := some [⟨chars "decl"⟩]
  raws := ⟨some (chars ";\n\n;")⟩
  serialization := chars ".a \x7b\n  color: red;\n\n;\x7d"
  blockSerialization := chars "\x7b\n  color: red;\n\n;\x7d"

/-- Soundness of a regex engine: an execution result is a contiguous
slice of the input (true of JS `exec`, whose `match[0]` is a slice of
the subject string). -/
def ExecSound (E : RegexEngine ρ) : Prop :=
  ∀ (r : ρ) (s m : Str), E.exec r s = some m → m <:+: s

/-! ## Index and slice lemmas -/

theorem jsCharAt_zero (s : Str) : jsCharAt s 0 = s.get? 0 := by
  simp [jsCharAt]

theorem jsCharAt_len_sub (s : Str) (k : Nat) (h : k ≤ s.length) :
    jsCharAt s ((s.length : Int) - k) = s.get? (s.length - k) := by
  unfold jsCharAt
  rw [if_neg (by omega)]
  congr 1
  omega

theorem jsSliceIdx_one (len : Int) (h : 1 ≤ len) : jsSliceIdx len 1 = 1 := by
  unfold jsSliceIdx
  rw [if_neg (by omega)]
  omega

theorem jsSliceIdx_neg (len : Int) (k : Nat) (hk : 0 < k) :
    jsSliceIdx len (-(k : Int)) = max (len - k) 0 := by
  unfold jsSliceIdx
  rw [if_pos (by omega)]
  omega

theorem jsSlice_one_neg (s : Str) (k : Nat) (hk : 0 < k) :
    jsSlice s 1 (-(k : Int)) = dropTrailing (s.drop 1) k := by
  rcases s with _ | ⟨a, t⟩
  · simp [jsSlice, jsSliceIdx, dropTrailing]
  · unfold jsSlice dropTrailing
    rw [jsSliceIdx_neg _ _ hk,
      jsSliceIdx_one _ (by simp only [List.length_cons]; omega)]
    have h1 : ((1 : Int)).toNat = 1 := rfl
    rw [h1]
    simp only [List.drop_succ_cons, List.drop_zero, List.length_cons,
      List.length_drop]
    congr 1
    omega

theorem jsSlice_one_negOne (s : Str) : jsSlice s 1 (-1) = dropTrailing (s.drop 1) 1 := by
  have h := jsSlice_one_neg s 1 (by norm_num)
  simpa using h

theorem jsSlice_one_negTwo (s : Str) : jsSlice s 1 (-2) = dropTrailing (s.drop 1) 2 := by
  have h := jsSlice_one_neg s 2 (by norm_num)
  simpa using h

/-- C1: for a comparison string of length at least two, the leaf match
treats it as an embedded regular expression iff its first character is
`/` and either its last character is `/` or its second-to-last character
is `/` with last character `i`; in that case the inner pattern text is
the string minus its leading `/` and its trailing `/` or `/i`, it is
compiled case-insensitively exactly when the trailing `i` is present,
and the compiled regex is applied to the value exactly as in the
native-regex branch (final conjunct). -/
theorem claim1_embedded_regex_convention {ρ : Type} (E : RegexEngine ρ)
    (value c : Str) (h2 : 2 ≤ c.length) :
    (comparisonIsRegex c ↔
      (c.get? 0 = some '/' ∧
        (c.get? (c.length - 1) = some '/' ∨
          (c.get? (c.length - 2) = some '/' ∧
            c.get? (c.length - 1) = some 'i')))) ∧
    (comparisonIsRegex c →
      (c.get? (c.length - 1) = some 'i' →
        testAgainstStringOrRegExp E value (.str c) =
          (match E.compile (dropTrailing (c.drop 1) 2) true with
           | .error e => .error e
           | .ok r => .ok ((E.exec r value).map fun m =>
               { matchedInput := value, pattern := .str c, substring := m }))) ∧
      (¬c.get? (c.length - 1) = some 'i' →
        testAgainstStringOrRegExp E value (.str c) =
          (match E.compile (dropTrailing (c.drop 1) 1) false with
           | .error e => .error e
           | .ok r => .ok ((E.exec r value).map fun m =>
               { matchedInput := value, pattern := .str c, substring := m })))) ∧
    (¬comparisonIsRegex c →
      testAgainstStringOrRegExp E value (.str c) =
        .ok (if value = c then
          some { matchedInput := value, pattern := .str c, substring := value }
        else none)) ∧
    (∀ r : ρ, testAgainstStringOrRegExp E value (.regex r) =
      .ok ((E.exec r value).map fun m =>
        { matchedInput := value, pattern := .regex r, substring := m })) := by
  have hA : jsCharAt c 0 = c.get? 0 := jsCharAt_zero c
  have hB : jsCharAt c ((c.length : Int) - 1) = c.get? (c.length - 1) :=
    jsCharAt_len_sub c 1 (by omega)
  have hC : jsCharAt c ((c.length : Int) - 2) = c.get? (c.length - 2) :=
    jsCharAt_len_sub c 2 h2
  refine ⟨?_, fun hconv => ⟨fun hci => ?_, fun hci => ?_⟩, fun hnc => ?_,
    fun r => rfl⟩
  · unfold comparisonIsRegex
    rw [hA, hB, hC]
  · simp only [testAgainstStringOrRegExp]
    rw [if_pos hconv, hB, if_pos hci, jsSlice_one_negTwo]
  · simp only [testAgainstStringOrRegExp]
    rw [if_pos hconv, hB, if_neg hci, jsSlice_one_negOne]
  · simp only [testAgainstStringOrRegExp]
    rw [if_neg hnc]

/-- Witness for C1: the comparison string `/fo/i` at input `FOO`,
evaluated on the concrete engine. -/
theorem claim1_witness :
    testAgainstStringOrRegExp modelEngine (chars "FOO")
        (.str (chars "/fo/i")) =
      (match modelEngine.compile (dropTrailing ((chars "/fo/i").drop 1) 2)
          true with
       | .error e => .error e
       | .ok r => .ok ((modelEngine.exec r (chars "FOO")).map fun m =>
           { matchedInput := chars "FOO", pattern := .str (chars "/fo/i"),
             substring := m })) :=
  ((claim1_embedded_regex_convention modelEngine (chars "FOO")
      (chars "/fo/i") (by decide)).2.1 (by decide)).1 (by decide)

/-- Counterexample to C2: the one-character comparison string `/` does
not fall through to the literal branch.  Its single character is both
its first and its last character, so the embedded-regex convention
holds, the inner pattern text is empty, and the empty regular expression
(`new RegExp("")` in JS, faithfully modelled by the concrete engine)
matches every value with an empty matched substring — here the value
`x`, which is different from the comparison string. -/
theorem claim2_counterexample :
    testAgainstStringOrRegExp modelEngine (chars "x") (.str (chars "/")) =
      .ok (some ⟨chars "x", .str (chars "/"), []⟩) ∧
    chars "x" ≠ chars "/" ∧ (chars "/").length < 2 := by
  refine ⟨by decide, by decide, by decide⟩

/-- C2 (amended): a comparison string shorter than two characters other
than the one-character string `/` falls through to the literal branch:
it matches an input value iff the value equals the comparison string.
(The lone `/` instead satisfies the embedded-regex convention — its only
character is both first and last — and is treated as an embedded regex
with empty inner pattern; no access is out of bounds in either case,
`jsCharAt` being total.) -/
theorem claim2_short_string_literal {ρ : Type} (E : RegexEngine ρ)
    (value c : Str) (hlen : c.length < 2) (hc : c ≠ chars "/") :
    testAgainstStringOrRegExp E value (.str c) =
      .ok (if value = c then
        some { matchedInput := value, pattern := .str c, substring := value }
      else none) := by
  have hnc : ¬comparisonIsRegex c := by
    rcases c with _ | ⟨a, _ | ⟨b, t⟩⟩
    · decide
    · intro h
      obtain ⟨h1, -⟩ := h
      simp only [jsCharAt_zero, List.get?] at h1
      exact hc (by rw [Option.some_inj.mp h1]; rfl)
    · simp only [List.length_cons] at hlen
      omega
  simp only [testAgainstStringOrRegExp]
  rw [if_neg hnc]

/-- Witness for C2 (amended): the one-character comparison `a` compared
literally. -/
theorem claim2_witness :
    testAgainstStringOrRegExp modelEngine (chars "a") (.str (chars "a")) =
      .ok (if chars "a" = chars "a" then
        some ⟨chars "a", .str (chars "a"), chars "a"⟩
      else none) :=
  claim2_short_string_literal modelEngine (chars "a") (chars "a")
    (by decide) (by decide)

/-- Counterexample to C3: JS `replace` with the non-global pattern
`/;+/` rewrites only the first match, so for the raw trailing whitespace
`;\n\n;` the text the rule inspects still contains a semicolon — not
all semicolon characters are stripped. -/
theorem claim3_counterexample :
    beforeText claim3Stmt = chars "\n\n;" ∧
      ';' ∈ beforeText claim3Stmt := by
  refine ⟨by decide, by decide⟩

/-- C3 (amended): the whitespace text the rule inspects is the raw
trailing-whitespace field (empty when absent) with only the FIRST
maximal run of consecutive semicolons removed; text without a semicolon
is unchanged, and any semicolons after the first run are retained. -/
theorem claim3_semicolon_stripping :
    (∀ stmt : Statement,
      beforeText stmt = replaceSemiRunOnce ((stmt.raws.after).getD [])) ∧
    (∀ s : Str, ';' ∉ s → replaceSemiRunOnce s = s) ∧
    (∀ a b : Str, ';' ∉ a →
      replaceSemiRunOnce (a ++ ';' :: b) = a ++ b.dropWhile (· = ';')) := by
  refine ⟨fun stmt => rfl, fun s hs => ?_, fun a b ha => ?_⟩
  · induction s with
    | nil => rfl
    | cons c t ih =>
        simp only [List.mem_cons, not_or] at hs
        simp only [replaceSemiRunOnce]
        rw [if_neg fun h => hs.1 h.symm]
        exact congrArg (List.cons c) (ih hs.2)
  · induction a with
    | nil => simp [replaceSemiRunOnce]
    | cons x a' ih =>
        simp only [List.mem_cons, not_or] at ha
        simp only [List.cons_append, replaceSemiRunOnce]
        rw [if_neg fun h => ha.1 h.symm]
        exact congrArg (List.cons x) (ih ha.2)

/-- Witness for C3 (amended): the text `a;;b` loses its first semicolon
run and keeps the rest. -/
theorem claim3_witness :
    replaceSemiRunOnce (chars "a" ++ ';' :: chars ";b") =
      chars "a" ++ (chars ";b").dropWhile (· = ';') :=
  claim3_semicolon_stripping.2.2 (chars "a") (chars ";b") (by decide)

/-- C6: a comparison string satisfying the embedded-regex convention
whose inner pattern text fails to compile makes the leaf match surface
the construction error, which also propagates through
`matchesStringOrRegExp`; an error value is distinct from every ordinary
result, in particular from the NoMatch value `.ok none`. -/
theorem claim6_construction_error_propagates {ρ : Type} (E : RegexEngine ρ)
    (value c e : Str) (hconv : comparisonIsRegex c) :
    (jsCharAt c ((c.length : Int) - 1) = some 'i' →
      E.compile (jsSlice c 1 (-2)) true = .error e →
      testAgainstStringOrRegExp E value (.str c) = .error e ∧
        matchesStringOrRegExp E (.single value) (.single (.str c)) =
          .error e) ∧
    (¬jsCharAt c ((c.length : Int) - 1) = some 'i' →
      E.compile (jsSlice c 1 (-1)) false = .error e →
      testAgainstStringOrRegExp E value (.str c) = .error e ∧
        matchesStringOrRegExp E (.single value) (.single (.str c)) =
          .error e) ∧
    (∀ o : Option (MatchResult ρ),
      testAgainstStringOrRegExp E value (.str c) = .error e →
      testAgainstStringOrRegExp E value (.str c) ≠ .ok o) := by
  refine ⟨fun hci hcomp => ?_, fun hci hcomp => ?_, fun o he hok => ?_⟩
  · have h : testAgainstStringOrRegExp E value (.str c) = .error e := by
      simp only [testAgainstStringOrRegExp]
      rw [if_pos hconv, if_pos hci, hcomp]
    exact ⟨h, h⟩
  · have h : testAgainstStringOrRegExp E value (.str c) = .error e := by
      simp only [testAgainstStringOrRegExp]
      rw [if_pos hconv, if_neg hci, hcomp]
    exact ⟨h, h⟩
  · rw [he] at hok
    exact Except.noConfusion hok

/-- Witness for C6: the comparison `/a(/` (inner text `a(`, rejected by
`new RegExp` and by the concrete engine) at input `abc`. -/
theorem claim6_witness :
    testAgainstStringOrRegExp modelEngine (chars "abc")
        (.str (chars "/a(/")) =
      .error (chars "Invalid regular expression") ∧
    matchesStringOrRegExp modelEngine (.single (chars "abc"))
        (.single (.str (chars "/a(/"))) =
      .error (chars "Invalid regular expression") :=
  (claim6_construction_error_propagates modelEngine (chars "abc")
      (chars "/a(/") (chars "Invalid regular expression")
      (by decide)).2.1 (by decide) (by decide)

/-! ## Short-circuit iteration lemmas -/

theorem go_comparison_append_none (E : RegexEngine ρ) (v : Str)
    (l₁ l₂ : List (StrOrRegex ρ))
    (h : ∀ x ∈ l₁, testAgainstStringOrRegExp E v x = .ok none) :
    testAgainstStringOrRegExpOrArray.go E v (l₁ ++ l₂) =
      testAgainstStringOrRegExpOrArray.go E v l₂ := by
  induction l₁ with
  | nil => rfl
  | cons c t ih =>
      have hc := h c (List.mem_cons_self c t)
      simp only [List.cons_append, testAgainstStringOrRegExpOrArray.go, hc]
      exact ih fun x hx => h x (List.mem_cons_of_mem c hx)

theorem go_comparison_cons_some (E : RegexEngine ρ) (v : Str)
    (c : StrOrRegex ρ) (l : List (StrOrRegex ρ)) (m : MatchResult ρ)
    (h : testAgainstStringOrRegExp E v c = .ok (some m)) :
    testAgainstStringOrRegExpOrArray.go E v (c :: l) = .ok (some m) := by
  simp only [testAgainstStringOrRegExpOrArray.go, h]
  rfl

theorem go_input_append_none (E : RegexEngine ρ) (cmp : JSComparison ρ)
    (l₁ l₂ : List Str)
    (h : ∀ x ∈ l₁, testAgainstStringOrRegExpOrArray E x cmp = .ok none) :
    matchesStringOrRegExp.go E cmp (l₁ ++ l₂) =
      matchesStringOrRegExp.go E cmp l₂ := by
  induction l₁ with
  | nil => rfl
  | cons v t ih =>
      have hv := h v (List.mem_cons_self v t)
      simp only [List.cons_append, matchesStringOrRegExp.go, hv]
      exact ih fun x hx => h x (List.mem_cons_of_mem v hx)

theorem go_input_cons_some (E : RegexEngine ρ) (cmp : JSComparison ρ)
    (v : Str) (l : List Str) (m : MatchResult ρ)
    (h : testAgainstStringOrRegExpOrArray E v cmp = .ok (some m)) :
    matchesStringOrRegExp.go E cmp (v :: l) = .ok (some m) := by
  simp only [matchesStringOrRegExp.go, h]
  rfl

theorem test_pattern_eq (E : RegexEngine ρ) (v : Str) (cmp : StrOrRegex ρ)
    (m : MatchResult ρ)
    (h : testAgainstStringOrRegExp E v cmp = .ok (some m)) :
    m.pattern = cmp := by
  cases cmp with
  | regex r =>
      simp only [testAgainstStringOrRegExp] at h
      cases hx : E.exec r v with
      | none => rw [hx] at h; cases h
      | some x =>
          rw [hx] at h
          have hm := Option.some.inj (Except.ok.inj h)
          rw [← hm]
  | str c =>
      by_cases hconv : comparisonIsRegex c
      · simp only [testAgainstStringOrRegExp, if_pos hconv] at h
        by_cases hci : jsCharAt c ((c.length : Int) - 1) = some 'i'
        · rw [if_pos hci] at h
          cases hcomp : E.compile (jsSlice c 1 (-2)) true with
          | error e => rw [hcomp] at h; cases h
          | ok r =>
              rw [hcomp] at h
              have h2 : Except.ok ((E.exec r v).map fun mm =>
                  (⟨v, StrOrRegex.str c, mm⟩ : MatchResult ρ)) =
                  Except.ok (some m) := h
              cases hx : E.exec r v with
              | none => rw [hx] at h2; cases h2
              | some x =>
                  rw [hx] at h2
                  have hm := Option.some.inj (Except.ok.inj h2)
                  rw [← hm]
        · rw [if_neg hci] at h
          cases hcomp : E.compile (jsSlice c 1 (-1)) false with
          | error e => rw [hcomp] at h; cases h
          | ok r =>
              rw [hcomp] at h
              have h2 : Except.ok ((E.exec r v).map fun mm =>
                  (⟨v, StrOrRegex.str c, mm⟩ : MatchResult ρ)) =
                  Except.ok (some m) := h
              cases hx : E.exec r v with
              | none => rw [hx] at h2; cases h2
              | some x =>
                  rw [hx] at h2
                  have hm := Option.some.inj (Except.ok.inj h2)
                  rw [← hm]
      · simp only [testAgainstStringOrRegExp, if_neg hconv] at h
        by_cases hv : v = c
        · rw [if_pos hv] at h
          have hm := Option.some.inj (Except.ok.inj h)
          rw [← hm]
        · rw [if_neg hv] at h
          cases h

/-- C7: the matcher returns the first non-NoMatch result in order.  For
an array comparison, elements are tried in order; once a prefix yields
only NoMatch and an element matches, the overall result is that
element's result whatever comes after it (short-circuit), and the
`pattern` field of the result is that first matching element.  For an
array input, elements are matched in order against the whole comparison
with the same short-circuit; NoMatch is returned only when every pair
fails. -/
theorem claim7_first_match_in_order {ρ : Type} (E : RegexEngine ρ) :
    (∀ (v : Str) (l₁ : List (StrOrRegex ρ)) (c : StrOrRegex ρ)
        (l₂ : List (StrOrRegex ρ)) (m : MatchResult ρ),
      (∀ x ∈ l₁, testAgainstStringOrRegExp E v x = .ok none) →
      testAgainstStringOrRegExp E v c = .ok (some m) →
      testAgainstStringOrRegExpOrArray E v (.list (l₁ ++ c :: l₂)) =
          .ok (some m) ∧
        m.pattern = c) ∧
    (∀ (v : Str) (l : List (StrOrRegex ρ)),
      (∀ x ∈ l, testAgainstStringOrRegExp E v x = .ok none) →
      testAgainstStringOrRegExpOrArray E v (.list l) = .ok none) ∧
    (∀ (l₁ : List Str) (v : Str) (l₂ : List Str) (cmp : JSComparison ρ)
        (m : MatchResult ρ),
      (∀ x ∈ l₁, testAgainstStringOrRegExpOrArray E x cmp = .ok none) →
      testAgainstStringOrRegExpOrArray E v cmp = .ok (some m) →
      matchesStringOrRegExp E (.list (l₁ ++ v :: l₂)) cmp = .ok (some m)) ∧
    (∀ (l : List Str) (cmp : JSComparison ρ),
      (∀ x ∈ l, testAgainstStringOrRegExpOrArray E x cmp = .ok none) →
      matchesStringOrRegExp E (.list l) cmp = .ok none) := by
  refine ⟨fun v l₁ c l₂ m h1 h2 => ?_, fun v l h1 => ?_,
    fun l₁ v l₂ cmp m h1 h2 => ?_, fun l cmp h1 => ?_⟩
  · constructor
    · show testAgainstStringOrRegExpOrArray.go E v (l₁ ++ c :: l₂) =
        .ok (some m)
      rw [go_comparison_append_none E v l₁ (c :: l₂) h1]
      exact go_comparison_cons_some E v c l₂ m h2
    · exact test_pattern_eq E v c m h2
  · show testAgainstStringOrRegExpOrArray.go E v l = .ok none
    have h := go_comparison_append_none E v l [] h1
    rw [List.append_nil] at h
    exact h
  · show matchesStringOrRegExp.go E cmp (l₁ ++ v :: l₂) = .ok (some m)
    rw [go_input_append_none E cmp l₁ (v :: l₂) h1]
    exact go_input_cons_some E cmp v l₂ m h2
  · show matchesStringOrRegExp.go E cmp l = .ok none
    have h := go_input_append_none E cmp l [] h1
    rw [List.append_nil] at h
    exact h

/-- Witness for C7: the input `b` against the comparison array
`[a, b, zz]`; the first element fails, the second matches, the third is
irrelevant, and the result's pattern is the second element. -/
theorem claim7_witness :
    testAgainstStringOrRegExpOrArray modelEngine (chars "b")
        (.list [.str (chars "a"), .str (chars "b"), .str (chars "zz")]) =
      .ok (some ⟨chars "b", .str (chars "b"), chars "b"⟩) ∧
    (⟨chars "b", .str (chars "b"), chars "b"⟩ :
        MatchResult ModelRegex).pattern =
      .str (chars "b") :=
  (claim7_first_match_in_order modelEngine).1 (chars "b")
    [.str (chars "a")] (.str (chars "b")) [.str (chars "zz")]
    ⟨chars "b", .str (chars "b"), chars "b"⟩ (by decide) (by decide)

/-- Counterexample to C8: `matches(s, t)` does not fail for every
`t ≠ s`.  The comparison string `/foo/` is different from the input
`foo`, yet the match succeeds, because the comparison satisfies the
embedded-regex convention and is compiled to the regex `foo` (faithful
JS behaviour, modelled by the concrete engine) which matches the
input. -/
theorem claim8_counterexample :
    matchesStringOrRegExp modelEngine (.single (chars "foo"))
        (.single (.str (chars "/foo/"))) =
      .ok (some ⟨chars "foo", .str (chars "/foo/"), chars "foo"⟩) ∧
    chars "foo" ≠ chars "/foo/" :=
  ⟨by decide, by decide⟩

/-- C8 (amended): for literal strings — strings that do not satisfy the
embedded-regex convention — `matches(s, s)` succeeds with
`substring == s`, and `matches(s, t)` returns NoMatch for `t ≠ s`. -/
theorem claim8_literal_self_match {ρ : Type} (E : RegexEngine ρ)
    (s t : Str) (hs : ¬comparisonIsRegex s) (ht : ¬comparisonIsRegex t) :
    matchesStringOrRegExp E (.single s) (.single (.str s)) =
      .ok (some ⟨s, .str s, s⟩) ∧
    (t ≠ s →
      matchesStringOrRegExp E (.single s) (.single (.str t)) = .ok none) := by
  constructor
  · show testAgainstStringOrRegExp E s (.str s) = .ok (some ⟨s, .str s, s⟩)
    simp only [testAgainstStringOrRegExp]
    rw [if_neg hs]
    simp
  · intro hne
    show testAgainstStringOrRegExp E s (.str t) = .ok none
    simp only [testAgainstStringOrRegExp]
    rw [if_neg ht, if_neg fun h => hne h.symm]

/-- Witness for C8 (amended): the literal strings `abc` and `xy`. -/
theorem claim8_witness :
    matchesStringOrRegExp modelEngine (.single (chars "abc"))
        (.single (.str (chars "abc"))) =
      .ok (some ⟨chars "abc", .str (chars "abc"), chars "abc"⟩) ∧
    matchesStringOrRegExp modelEngine (.single (chars "abc"))
        (.single (.str (chars "xy"))) =
      .ok none :=
  ⟨(claim8_literal_self_match modelEngine (chars "abc") (chars "xy")
      (by decide) (by decide)).1,
   (claim8_literal_self_match modelEngine (chars "abc") (chars "xy")
      (by decide) (by decide)).2 (by decide)⟩

/-! ## The substring invariant -/

theorem infixSelf (l : List Char) : l <:+: l := ⟨[], [], by simp⟩

theorem infixTake (n : Nat) (l : List Char) : l.take n <:+: l :=
  ⟨[], l.drop n, by simp⟩

theorem infixCons {m t : List Char} (b : Char) (h : m <:+: t) :
    m <:+: b :: t := by
  obtain ⟨u, w, hw⟩ := h
  exact ⟨b :: u, w, by simp only [List.cons_append, List.append_assoc] at hw ⊢; rw [hw]⟩

theorem test_result_invariant (E : RegexEngine ρ) (hE : ExecSound E)
    (v : Str) (cmp : StrOrRegex ρ) (m : MatchResult ρ)
    (h : testAgainstStringOrRegExp E v cmp = .ok (some m)) :
    m.substring <:+: m.matchedInput ∧
    (∀ c, m.pattern = .str c → ¬comparisonIsRegex c →
      m.substring = m.matchedInput) := by
  cases cmp with
  | regex r =>
      simp only [testAgainstStringOrRegExp] at h
      cases hx : E.exec r v with
      | none => rw [hx] at h; cases h
      | some x =>
          rw [hx] at h
          have hm := Option.some.inj (Except.ok.inj h)
          rw [← hm]
          exact ⟨hE r v x hx, fun c hc => StrOrRegex.noConfusion hc⟩
  | str c =>
      by_cases hconv : comparisonIsRegex c
      · simp only [testAgainstStringOrRegExp, if_pos hconv] at h
        by_cases hci : jsCharAt c ((c.length : Int) - 1) = some 'i'
        · rw [if_pos hci] at h
          cases hcomp : E.compile (jsSlice c 1 (-2)) true with
          | error e => rw [hcomp] at h; cases h
          | ok r =>
              rw [hcomp] at h
              have h2 : Except.ok ((E.exec r v).map fun mm =>
                  (⟨v, StrOrRegex.str c, mm⟩ : MatchResult ρ)) =
                  Except.ok (some m) := h
              cases hx : E.exec r v with
              | none => rw [hx] at h2; cases h2
              | some x =>
                  rw [hx] at h2
                  have hm := Option.some.inj (Except.ok.inj h2)
                  rw [← hm]
                  refine ⟨hE r v x hx, fun c' hc' hnc' => ?_⟩
                  exact absurd hconv (by rw [← StrOrRegex.str.inj hc'] at hnc'; exact hnc')
        · rw [if_neg hci] at h
          cases hcomp : E.compile (jsSlice c 1 (-1)) false with
          | error e => rw [hcomp] at h; cases h
          | ok r =>
              rw [hcomp] at h
              have h2 : Except.ok ((E.exec r v).map fun mm =>
                  (⟨v, StrOrRegex.str c, mm⟩ : MatchResult ρ)) =
                  Except.ok (some m) := h
              cases hx : E.exec r v with
              | none => rw [hx] at h2; cases h2
              | some x =>
                  rw [hx] at h2
                  have hm := Option.some.inj (Except.ok.inj h2)
                  rw [← hm]
                  refine ⟨hE r v x hx, fun c' hc' hnc' => ?_⟩
                  exact absurd hconv (by rw [← StrOrRegex.str.inj hc'] at hnc'; exact hnc')
      · simp only [testAgainstStringOrRegExp, if_neg hconv] at h
        by_cases hv : v = c
        · rw [if_pos hv] at h
          have hm := Option.some.inj (Except.ok.inj h)
          rw [← hm]
          exact ⟨infixSelf v, fun c' hc' hnc' => rfl⟩
        · rw [if_neg hv] at h
          cases h

theorem arr_ok_some_leaf (E : RegexEngine ρ) (v : Str) (cmp : JSComparison ρ)
    (m : MatchResult ρ)
    (h : testAgainstStringOrRegExpOrArray E v cmp = .ok (some m)) :
    ∃ c, testAgainstStringOrRegExp E v c = .ok (some m) := by
  cases cmp with
  | single c => exact ⟨c, h⟩
  | list l =>
      have hgo : testAgainstStringOrRegExpOrArray.go E v l = .ok (some m) := h
      clear h
      induction l with
      | nil => cases hgo
      | cons c t ih =>
          cases htc : testAgainstStringOrRegExp E v c with
          | error e =>
              rw [testAgainstStringOrRegExpOrArray.go, htc] at hgo
              have h2 : (Except.error e :
                  Except Str (Option (MatchResult ρ))) = .ok (some m) := hgo
              cases h2
          | ok o =>
              cases o with
              | some m' =>
                  rw [testAgainstStringOrRegExpOrArray.go, htc] at hgo
                  have h2 : (Except.ok (some m') :
                      Except Str (Option (MatchResult ρ))) = .ok (some m) := hgo
                  have hm := Option.some.inj (Except.ok.inj h2)
                  exact ⟨c, hm ▸ htc⟩
              | none =>
                  rw [testAgainstStringOrRegExpOrArray.go, htc] at hgo
                  exact ih hgo

theorem matches_ok_some_leaf (E : RegexEngine ρ) (input : JSInput)
    (cmp : JSComparison ρ) (m : MatchResult ρ)
    (h : matchesStringOrRegExp E input cmp = .ok (some m)) :
    ∃ v c, testAgainstStringOrRegExp E v c = .ok (some m) := by
  cases input with
  | single s =>
      obtain ⟨c, hc⟩ := arr_ok_some_leaf E s cmp m h
      exact ⟨s, c, hc⟩
  | list li =>
      have hgo : matchesStringOrRegExp.go E cmp li = .ok (some m) := h
      clear h
      induction li with
      | nil => cases hgo
      | cons v t ih =>
          cases htv : testAgainstStringOrRegExpOrArray E v cmp with
          | error e =>
              rw [matchesStringOrRegExp.go, htv] at hgo
              have h2 : (Except.error e :
                  Except Str (Option (MatchResult ρ))) = .ok (some m) := hgo
              cases h2
          | ok o =>
              cases o with
              | some m' =>
                  rw [matchesStringOrRegExp.go, htv] at hgo
                  have h2 : (Except.ok (some m') :
                      Except Str (Option (MatchResult ρ))) = .ok (some m) := hgo
                  have hm := Option.some.inj (Except.ok.inj h2)
                  obtain ⟨c, hc⟩ := arr_ok_some_leaf E v cmp m (hm ▸ htv)
                  exact ⟨v, c, hc⟩
              | none =>
                  rw [matchesStringOrRegExp.go, htv] at hgo
                  exact ih hgo

/-- C9: every successful match result, in any branch, has a `substring`
that is a contiguous slice of `matchedInput` (assuming the regex
engine's results are slices of its subject, as JS `exec` results are),
and when the pattern is a literal string — a string pattern not
satisfying the embedded-regex convention — the `substring` equals the
whole `matchedInput`. -/
theorem claim9_substring_invariant {ρ : Type} (E : RegexEngine ρ)
    (hE : ExecSound E) (input : JSInput) (cmp : JSComparison ρ)
    (m : MatchResult ρ)
    (h : matchesStringOrRegExp E input cmp = .ok (some m)) :
    m.substring <:+: m.matchedInput ∧
    (∀ c, m.pattern = .str c → ¬comparisonIsRegex c →
      m.substring = m.matchedInput) := by
  obtain ⟨v, c0, hleaf⟩ := matches_ok_some_leaf E input cmp m h
  exact test_result_invariant E hE v c0 m hleaf

theorem execFromSound (ci : Bool) (p : Str) :
    ∀ s m : Str, execFrom ci p s = some m → m <:+: s := by
  intro s
  induction s with
  | nil =>
      intro m h
      simp only [execFrom] at h
      by_cases hp : p.isEmpty
      · rw [if_pos hp] at h
        rw [← Option.some.inj h]
      · rw [if_neg hp] at h
        cases h
  | cons b t ih =>
      intro m h
      simp only [execFrom] at h
      by_cases hm : matchesAt ci p (b :: t) = true
      · rw [if_pos hm] at h
        rw [← Option.some.inj h]
        exact infixTake p.length (b :: t)
      · rw [if_neg hm] at h
        exact infixCons b (ih m h)

theorem modelEngineSound : ExecSound modelEngine :=
  fun r s m h => execFromSound r.ignoreCase r.source s m h

/-- Witness for C9: matching `xFOOy` against `/foo/i` yields the
substring `FOO`, a contiguous slice of the matched input. -/
theorem claim9_witness :
    (⟨chars "xFOOy", .str (chars "/foo/i"), chars "FOO"⟩ :
        MatchResult ModelRegex).substring <:+:
      (⟨chars "xFOOy", .str (chars "/foo/i"), chars "FOO"⟩ :
        MatchResult ModelRegex).matchedInput :=
  (claim9_substring_invariant modelEngine modelEngineSound
    (.single (chars "xFOOy")) (.single (.str (chars "/foo/i")))
    ⟨chars "xFOOy", .str (chars "/foo/i"), chars "FOO"⟩ (by decide)).1

/-! ## The rule's expectation and outcome -/

theorem test_literal_self (E : RegexEngine ρ) (s : Str)
    (hs : ¬comparisonIsRegex s) :
    testAgainstStringOrRegExp E s (.str s) = .ok (some ⟨s, .str s, s⟩) := by
  simp only [testAgainstStringOrRegExp]
  rw [if_neg hs]
  simp

theorem optionsMatches_valid {ρ : Type} [DecidableEq ρ] (E : RegexEngine ρ)
    (so : Option (SecondaryOpts ρ)) (hso : validSecondary so) :
    optionsMatches E so (some (chars "after-closing-brace")) =
      .ok (exceptContainsACB so) := by
  cases so with
  | none => rfl
  | some o =>
      obtain ⟨exc⟩ := o
      cases exc with
      | none => rfl
      | some cmp =>
          cases cmp with
          | single p =>
              have hp : p = .str (chars "after-closing-brace") := hso
              subst hp
              have hm := test_literal_self E (chars "after-closing-brace")
                (by decide)
              have heq : optionsMatches E
                  (some ⟨some (.single (.str (chars "after-closing-brace")))⟩)
                  (some (chars "after-closing-brace")) =
                  Bind.bind (testAgainstStringOrRegExp E
                    (chars "after-closing-brace")
                    (.str (chars "after-closing-brace")))
                    (fun r => pure r.isSome) := rfl
              rw [heq, hm]
              rfl
          | list l =>
              cases l with
              | nil => rfl
              | cons x t =>
                  have hx : x = .str (chars "after-closing-brace") :=
                    hso x (List.mem_cons_self x t)
                  subst hx
                  have hm := test_literal_self E (chars "after-closing-brace")
                    (by decide)
                  have heq : optionsMatches E
                      (some ⟨some (.list
                        (.str (chars "after-closing-brace") :: t))⟩)
                      (some (chars "after-closing-brace")) =
                      Bind.bind (testAgainstStringOrRegExpOrArray.go E
                        (chars "after-closing-brace")
                        (.str (chars "after-closing-brace") :: t))
                        (fun r => pure r.isSome) := rfl
                  rw [heq, go_comparison_cons_some E
                    (chars "after-closing-brace")
                    (.str (chars "after-closing-brace")) t _ hm]
                  rfl

/-- C5: under schema-valid secondary options, the expectation boolean is
`primary == "never"` when the `except` option contains
`after-closing-brace`, the statement is an at-rule, and no direct child
has type `decl`; for every other statement it is
`primary == "always-multi-line" && the serialized body spans more than
one line`. -/
theorem claim5_expectation_boolean {ρ : Type} [DecidableEq ρ]
    (E : RegexEngine ρ) (primary : Str) (so : Option (SecondaryOpts ρ))
    (stmt : Statement) (hso : validSecondary so) :
    ((exceptContainsACB so && stmt.type == chars "atrule" &&
        !(((stmt.nodes.getD []).map ChildNode.type).contains
          (chars "decl"))) = true →
      expectEmptyLineBefore E primary so stmt =
        .ok (primary == chars "never")) ∧
    (¬(exceptContainsACB so && stmt.type == chars "atrule" &&
        !(((stmt.nodes.getD []).map ChildNode.type).contains
          (chars "decl"))) = true →
      expectEmptyLineBefore E primary so stmt =
        .ok (primary == chars "always-multi-line" &&
          !(isSingleLineString (blockString stmt)))) := by
  have heq : expectEmptyLineBefore E primary so stmt =
      Bind.bind (optionsMatches E so (some (chars "after-closing-brace")))
        (fun om =>
          if om && stmt.type == chars "atrule" &&
              !(((stmt.nodes.getD []).map ChildNode.type).contains
                (chars "decl")) then
            pure (primary == chars "never")
          else
            pure (primary == chars "always-multi-line" &&
              !(isSingleLineString (blockString stmt)))) := rfl
  rw [heq, optionsMatches_valid E so hso]
  constructor
  · intro hcond
    show (if exceptContainsACB so && stmt.type == chars "atrule" &&
        !(((stmt.nodes.getD []).map ChildNode.type).contains
          (chars "decl")) then
        (pure (primary == chars "never") : Except Str Bool)
      else
        pure (primary == chars "always-multi-line" &&
          !(isSingleLineString (blockString stmt)))) = _
    rw [if_pos hcond]
    rfl
  · intro hcond
    show (if exceptContainsACB so && stmt.type == chars "atrule" &&
        !(((stmt.nodes.getD []).map ChildNode.type).contains
          (chars "decl")) then
        (pure (primary == chars "never") : Except Str Bool)
      else
        pure (primary == chars "always-multi-line" &&
          !(isSingleLineString (blockString stmt)))) = _
    rw [if_neg hcond]
    rfl

/-- Witness for C5: `except = ["after-closing-brace"]` on an at-rule
without declaration children inverts the expectation. -/
theorem claim5_witness :
    expectEmptyLineBefore modelEngine (chars "never")
        (some ⟨some (.list [.str (chars "after-closing-brace")])⟩)
        claim5Stmt =
      .ok (chars "never" == chars "never") :=
  (claim5_expectation_boolean modelEngine (chars "never")
      (some ⟨some (.list [.str (chars "after-closing-brace")])⟩)
      claim5Stmt
      (by show ∀ y ∈ [StrOrRegex.str (chars "after-closing-brace")],
            y = StrOrRegex.str (chars "after-closing-brace")
          decide)).1 (by decide)

/-- C4: for a checked statement with a non-empty block, if the actual
blank-line boolean equals the expected one the rule does nothing;
otherwise, outside fix mode, it emits exactly one report whose node is
the statement, whose index is the closing-brace index, and whose message
is the expected-empty-line message when a blank line was expected and
the unexpected-empty-line message otherwise. -/
theorem claim4_report_outcome {ρ : Type} [DecidableEq ρ]
    (E : RegexEngine ρ) (primary : Str) (so : Option (SecondaryOpts ρ))
    (ctx : Context) (stmt : Statement) (exp : Bool)
    (hb : hasBlock stmt = true) (he : hasEmptyBlock stmt = false)
    (hexp : expectEmptyLineBefore E primary so stmt = .ok exp) :
    (exp = hasEmptyLine (beforeText stmt) →
      check E primary so ctx stmt = .ok CheckOutcome.metNoop) ∧
    (exp ≠ hasEmptyLine (beforeText stmt) → ctx.fix = false →
      check E primary so ctx stmt =
        .ok (CheckOutcome.reported
          (if exp then messagesExpected else messagesRejected)
          stmt (closingBraceIndex stmt))) := by
  have hskip : (!hasBlock stmt || hasEmptyBlock stmt) = false := by
    rw [hb, he]
    rfl
  have hcheck : check E primary so ctx stmt =
      .ok (checkAfterExpect ctx stmt exp) := by
    simp only [check, hskip]
    rw [if_neg (by simp), hexp]
  constructor
  · intro hmet
    rw [hcheck]
    have hout : checkAfterExpect ctx stmt exp = CheckOutcome.metNoop := by
      simp only [checkAfterExpect]
      rw [if_pos (beq_iff_eq.mpr hmet)]
    rw [hout]
  · intro hne hfix
    rw [hcheck]
    have hout : checkAfterExpect ctx stmt exp =
        CheckOutcome.reported
          (if exp then messagesExpected else messagesRejected)
          stmt (closingBraceIndex stmt) := by
      simp only [checkAfterExpect]
      rw [if_neg fun h => hne (beq_iff_eq.mp h), hfix]
      rw [if_neg (by simp)]
    rw [hout]

/-- Witness for C4: the sample multi-line statement without a blank
line, under `always-multi-line` and no fix mode, yields the
expected-empty-line report. -/
theorem claim4_witness :
    check modelEngine (chars "always-multi-line") none ⟨false, none⟩
        sampleStatement =
      .ok (CheckOutcome.reported
        (if true then messagesExpected else messagesRejected)
        sampleStatement (closingBraceIndex sampleStatement)) :=
  (claim4_report_outcome modelEngine (chars "always-multi-line") none
      ⟨false, none⟩ sampleStatement true (by decide) (by decide)
      (by decide)).2 (by decide) rfl

/-- C10: for a checked statement whose actual blank-line state differs
from the expected one, fix mode without a supplied newline string is a
silent no-op: no report is emitted, no error is raised, and the
statement is left unchanged. -/
theorem claim10_fix_without_newline {ρ : Type} [DecidableEq ρ]
    (E : RegexEngine ρ) (primary : Str) (so : Option (SecondaryOpts ρ))
    (ctx : Context) (stmt : Statement) (exp : Bool)
    (hb : hasBlock stmt = true) (he : hasEmptyBlock stmt = false)
    (hexp : expectEmptyLineBefore E primary so stmt = .ok exp)
    (hne : exp ≠ hasEmptyLine (beforeText stmt))
    (hfix : ctx.fix = true) (hnl : ctx.newline = none) :
    check E primary so ctx stmt = .ok CheckOutcome.fixSkipped := by
  have hskip : (!hasBlock stmt || hasEmptyBlock stmt) = false := by
    rw [hb, he]
    rfl
  have hcheck : check E primary so ctx stmt =
      .ok (checkAfterExpect ctx stmt exp) := by
    simp only [check, hskip]
    rw [if_neg (by simp), hexp]
  rw [hcheck]
  have hout : checkAfterExpect ctx stmt exp = CheckOutcome.fixSkipped := by
    simp only [checkAfterExpect]
    rw [if_neg fun h => hne (beq_iff_eq.mp h), hfix]
    rw [if_pos rfl, hnl]
  rw [hout]

/-- Witness for C10: the sample statement in fix mode with no newline
string. -/
theorem claim10_witness :
    check modelEngine (chars "always-multi-line") none ⟨true, none⟩
        sampleStatement =
      .ok CheckOutcome.fixSkipped :=
  claim10_fix_without_newline modelEngine (chars "always-multi-line") none
    ⟨true, none⟩ sampleStatement true (by decide) (by decide) (by decide)
    (by decide) rfl rfl
